import Mathlib

/-!
The program `passcheck`: a report on the shadow password expiration policy.

A shallow embedding of `main.go` (package `main`, build tag `linux,amd64`).

* Go `int`, C `long` and `time.Duration` are 64-bit two's complement integers:
  they are modelled as `Int`, and every arithmetic operation of the source that
  can overflow is followed by `wrapInt64`.
* A `time.Time` built by `time.Date(..., time.Local)` and moved by `Add` carries
  no monotonic clock reading and always the same location pointer, so Go's `==`
  on two of them is equality of the instants.  An instant is modelled as the
  number of nanoseconds since `time.Date(1970, 1, 1, 0, 0, 0, 0, time.Local)`.
* `float64` values are modelled as the rationals they denote; every float64
  operation of the source rounds its exact result to the nearest binary64
  value, ties to even (`roundF64`).  The non-zero magnitudes met by this
  program lie between `2^(-47)` and `2^34`, far inside the normal range, so
  the exponent range is left unbounded.
* Go strings are modelled as lists of Unicode characters.
-/

namespace Passcheck

/-! ## Machine integers -/

/-- Two's complement wrap-around of a mathematical integer to `int64`. -/
def wrapInt64 (x : Int) : Int :=
  (x + 9223372036854775808) % 18446744073709551616 - 9223372036854775808

/-! ## Package `time` -/

/-!
A `time.Duration` is an `Int`, a signed 64-bit count of nanoseconds.  A
`time.Time` is an `Int`, the nanoseconds since 1970-01-01 00:00:00 in
`time.Local`.  The methods of both types keep their Go names in the namespaces
`Duration` and `Time`.
-/

/-- Constant `time.Second`. -/
def Second : Int := 1000000000

/-- Constant `time.Hour`. -/
def Hour : Int := 3600 * Second

/-- Smallest `time.Duration`, `-1 << 63`. -/
def minDuration : Int := -9223372036854775808

/-- Largest `time.Duration`, `1<<63 - 1`. -/
def maxDuration : Int := 9223372036854775807

/-- Method `Time.Add`: the seconds field of a `Time` is a full `int64` count of
seconds, so adding a `Duration` (at most 292 years) is exact. -/
def Time.Add (t : Int) (d : Int) : Int := t + d

/-- Method `Time.Sub`: the difference `t - u`, saturated to `minDuration` or
`maxDuration` when it does not fit a `Duration`. -/
def Time.Sub (t u : Int) : Int :=
  if t - u < minDuration then minDuration
  else if maxDuration < t - u then maxDuration
  else t - u

/-! ## float64 arithmetic -/

/-- Nearest integer to `x`, ties to the even one. -/
def roundHalfEven (x : ℚ) : ℤ :=
  if x - ⌊x⌋ < 1 / 2 then ⌊x⌋
  else if 1 / 2 < x - ⌊x⌋ then ⌊x⌋ + 1
  else if ⌊x⌋ % 2 = 0 then ⌊x⌋ else ⌊x⌋ + 1

/-- Binary64 rounding of a positive rational: with `2^e ≤ q < 2^(e+1)` the
result is the multiple of `2^(e-52)` nearest to `q`, ties to even. -/
def roundPos (q : ℚ) : ℚ :=
  roundHalfEven (q / 2 ^ (Int.log 2 q - 52)) * 2 ^ (Int.log 2 q - 52)

/-- Round to nearest binary64 value, ties to even (sign and magnitude). -/
def roundF64 (q : ℚ) : ℚ :=
  if q = 0 then 0 else if 0 < q then roundPos q else -roundPos (-q)

/-- Conversion `float64(n)` of an `int64`. -/
def float64OfInt (n : Int) : ℚ := roundF64 n

/-- The float64 sum `a + b`. -/
def fadd (a b : ℚ) : ℚ := roundF64 (a + b)

/-- The float64 quotient `a / b`. -/
def fdiv (a b : ℚ) : ℚ := roundF64 (a / b)

/-- Method `Duration.Seconds`:
`sec := d / Second; nsec := d % Second; return float64(sec) + float64(nsec)/1e9`
where `/` and `%` on integers truncate toward zero. -/
def Duration.Seconds (d : Int) : ℚ :=
  fadd (float64OfInt (d.tdiv Second)) (fdiv (float64OfInt (d.tmod Second)) 1000000000)

/-- The expression `int(math.Ceil(x))`, for `x` within the `int` range. -/
def intCeil (x : ℚ) : Int := ⌈x⌉

/-! ## Data model of `main.go` -/

/-- Struct `ExpirationInfo`. -/
structure ExpirationInfo where
  PasswordLastChanged : Int
  PasswordInactive : Int
  PasswordExpires : Int
  AccountExpired : Int
  Min : Int
  Max : Int
  Warning : Int
  Expirable : Bool
  deriving DecidableEq, Repr

/-- Struct `ExpirableLogin`; the `Expiration` pointer is never nil in a value
built by `listExpirableUsers`, so it is modelled by the record it points to. -/
structure ExpirableLogin where
  Login : List Char
  Expiration : ExpirationInfo
  deriving DecidableEq, Repr

/-- The fields of C `struct spwd` read by the program, each a C `long`. -/
structure Spwd where
  sp_lstchg : Int
  sp_min : Int
  sp_max : Int
  sp_warn : Int
  sp_inact : Int
  sp_expire : Int
  deriving DecidableEq, Repr

/-! ## Policy evaluation -/

/-- The local `days` of `ShouldWarnNow`:
`int(math.Ceil((elapsed.Seconds() / 86400)))`. -/
def elapsedDays (elapsed : Int) : Int :=
  intCeil (fdiv (Duration.Seconds elapsed) 86400)

/-- The day count in the words of the specification, `ceil(elapsed / 1 day)`,
in exact integer arithmetic (`/` on `Int` rounds down). -/
def ceilDays (elapsed : Int) : Int := -((-elapsed) / 86400000000000)

/-- Method `ExpirableLogin.ShouldWarnNow`; `time.Since(t)` is `time.Now().Sub(t)`
and the clock reading `time.Now()` is the argument `now`. -/
def ExpirableLogin.ShouldWarnNow (e : ExpirableLogin) (now : Int) : Bool :=
  if e.Expiration.Max = 99999 then false
  else
    let elapsed := Time.Sub now e.Expiration.PasswordLastChanged
    let days := elapsedDays elapsed
    if days ≤ e.Expiration.Warning ∧ days ≥ e.Expiration.Min then true
    else false

/-- The record of the scenarios of the specification: `lastChangedDay = 0`,
`max = 90`, `warning = 7`, `min = 0`, the other shadow fields `-1`. -/
def scenarioLogin : ExpirableLogin :=
  { Login := ['a', 'n', 'n']
    Expiration :=
      { PasswordLastChanged := 0
        PasswordInactive := 0
        PasswordExpires := 7776000000000000
        AccountExpired := 0
        Min := 0
        Max := 90
        Warning := 7
        Expirable := false } }

/-- A record with a long warning period: last change on day 0, `max = 400`,
`warning = 195`, `min = 0`. -/
def longWarningLogin : ExpirableLogin :=
  { Login := ['b', 'o', 'b']
    Expiration :=
      { PasswordLastChanged := 0
        PasswordInactive := 0
        PasswordExpires := 34560000000000000
        AccountExpired := 0
        Min := 0
        Max := 400
        Warning := 195
        Expirable := false } }

/-- A record whose password never expires: `max = 99999`, `warning = 7`,
`min = 0`, last change on day 0. -/
def neverExpiresLogin : ExpirableLogin :=
  { Login := ['e', 'v', 'e']
    Expiration :=
      { PasswordLastChanged := 0
        PasswordInactive := 0
        PasswordExpires := 0
        AccountExpired := 0
        Min := 0
        Max := 99999
        Warning := 7
        Expirable := false } }

/-- The record of scenario C: `min = 10` above `warning = 7`. -/
def emptyWindowLogin : ExpirableLogin :=
  { Login := ['d', 'a', 'n']
    Expiration :=
      { PasswordLastChanged := 0
        PasswordInactive := 0
        PasswordExpires := 7776000000000000
        AccountExpired := 0
        Min := 10
        Max := 90
        Warning := 7
        Expirable := false } }

/-- A record whose window opens late: last change on day 0, `max = 400`,
`min = 196`, `warning = 300`. -/
def lateWindowLogin : ExpirableLogin :=
  { Login := ['j', 'o', 'e']
    Expiration :=
      { PasswordLastChanged := 0
        PasswordInactive := 0
        PasswordExpires := 34560000000000000
        AccountExpired := 0
        Min := 196
        Max := 400
        Warning := 300
        Expirable := false } }

/-! ## Date derivation -/

/-- Function `daysDuration`: `time.Duration(d) * time.Duration(24*time.Hour)`,
an `int64` product. -/
def daysDuration (d : Int) : Int := wrapInt64 (d * (24 * Hour))

/-- The value of the expression `time.Date(1970, 1, 1, 0, 0, 0, 0, time.Local)`,
the origin of the model of `Time`. -/
def localEpoch : Int := 0

/-- Function `neverMarker`. -/
def neverMarker : Int := localEpoch

/-- Function `timeFromEpoch`. -/
def timeFromEpoch (v : Int) : Int :=
  if v = -1 then neverMarker
  else
    let dt := localEpoch
    let dt := Time.Add dt (daysDuration v)
    dt

/-- Function `getLoginExpiration`; the query `C.getspnam` of the shadow
database is the argument `getspnam`, `none` standing for its NULL result.  The
composite literal leaves `PasswordExpires` unset and both branches of the `if`
that follows assign it, so each branch is written as the record it leaves. -/
def getLoginExpiration (getspnam : List Char → Option Spwd) (login : List Char) :
    Option ExpirationInfo :=
  match getspnam login with
  | none => none
  | some sp =>
    if sp.sp_max = 99999 then
      some
        { PasswordLastChanged := timeFromEpoch sp.sp_lstchg
          PasswordInactive := neverMarker
          PasswordExpires := neverMarker
          AccountExpired := timeFromEpoch sp.sp_expire
          Warning := sp.sp_warn
          Max := sp.sp_max
          Min := sp.sp_min
          Expirable := decide (sp.sp_expire > -1) }
    else
      some
        { PasswordLastChanged := timeFromEpoch sp.sp_lstchg
          PasswordInactive := timeFromEpoch sp.sp_inact
          PasswordExpires := Time.Add (timeFromEpoch sp.sp_lstchg) (daysDuration sp.sp_max)
          AccountExpired := timeFromEpoch sp.sp_expire
          Warning := sp.sp_warn
          Max := sp.sp_max
          Min := sp.sp_min
          Expirable := decide (sp.sp_expire > -1) }

/-- The test of `main` that turns a date of the report into the text `Never`:
`date == neverMarker()`. -/
def isNever (date : Int) : Bool := decide (date = neverMarker)

/-! ## Packages `strings` and `bufio` -/

/-- Function `unicode.IsSpace`. -/
def isSpace (c : Char) : Bool :=
  let r := c.toNat
  if r ≤ 0xFF then
    r = 0x09 || r = 0x0A || r = 0x0B || r = 0x0C || r = 0x0D || r = 0x20 || r = 0x85 || r = 0xA0
  else
    r = 0x1680 || (0x2000 ≤ r && r ≤ 0x200A) || r = 0x2028 || r = 0x2029 || r = 0x202F
      || r = 0x205F || r = 0x3000

/-- Function `strings.TrimSpace`: the string without its leading and trailing
white space. -/
def TrimSpace (s : List Char) : List Char :=
  ((s.dropWhile isSpace).reverse.dropWhile isSpace).reverse

/-- Function `strings.HasPrefix`. -/
def HasPrefix : List Char → List Char → Bool
  | _, [] => true
  | [], _ :: _ => false
  | c :: s, p :: ps => c = p && HasPrefix s ps

/-- Function `strings.Index`: the position of the first instance of `sep` in
`s`, `none` for Go's `-1`. -/
def Index : List Char → List Char → Option Nat
  | [], sep => if sep = [] then some 0 else none
  | c :: s, sep =>
    if HasPrefix (c :: s) sep then some 0
    else (Index s sep).map (· + 1)

/-- The loop of `strings.genSplit`: at most `n` cuts at `sep`, then the rest
of the string as the last piece. -/
def genSplitLoop (sep : List Char) : Nat → List Char → List (List Char)
  | 0, s => [s]
  | n + 1, s =>
    match Index s sep with
    | none => [s]
    | some m => s.take m :: genSplitLoop sep n (s.drop (m + sep.length))

/-- Function `strings.SplitN(s, sep, n)` for a non-empty `sep` and `n ≥ 0`, the
case of the call `strings.SplitN(line, ":", 2)`: `nil` when `n == 0`, else `n`
is capped at `len(s) + 1` and the loop makes `n - 1` cuts. -/
def SplitN (s sep : List Char) (n : Nat) : List (List Char) :=
  if n = 0 then []
  else genSplitLoop sep (min n (s.length + 1) - 1) s

/-- Method `bufio.Reader.ReadString` on the unread input: the text up to and
including the first `delim`, whether the input ended before a `delim` was found
(error `io.EOF`), and the input left unread. -/
def ReadString (delim : Char) : List Char → List Char × Bool × List Char
  | [] => ([], true, [])
  | c :: cs =>
    if c = delim then ([c], false, cs)
    else
      let r := ReadString delim cs
      (c :: r.1, r.2.1, r.2.2)

/-- How a run of a Go function ends: with a result, with the run-time panic
`index out of range`, or, in this model only, with the loop budget used up. -/
inductive Run (α : Type) where
  | done (a : α)
  | indexOutOfRange
  | outOfFuel
  deriving DecidableEq, Repr

/-- The body of the loop of `listExpirableUsers` after a line was read:
the users collected once this line is handled. -/
def handleLine (getspnam : List Char → Option Spwd) (line : List Char)
    (users : List ExpirableLogin) : Run (List ExpirableLogin) :=
  let line := TrimSpace line
  let parts := SplitN line [':'] 2
  match parts[0]? with
  | none => Run.indexOutOfRange
  | some login =>
    match getLoginExpiration getspnam login with
    | none => Run.done users
    | some expInfo =>
      if expInfo.Expirable then Run.done (users ++ [⟨login, expInfo⟩])
      else Run.done users

/-- The `for` loop of `listExpirableUsers`, with a budget of iterations: read a
line, leave the loop when the read ended in `io.EOF`, else handle the line.
The input is the whole content of the file, so `io.EOF` is the only read
error. -/
def readLoop (getspnam : List Char → Option Spwd) :
    Nat → List Char → List ExpirableLogin → Run (List ExpirableLogin)
  | 0, _, _ => Run.outOfFuel
  | fuel + 1, input, users =>
    let r := ReadString (Char.ofNat 10) input
    if r.2.1 then Run.done users
    else
      match handleLine getspnam r.1 users with
      | Run.done users => readLoop getspnam fuel r.2.2 users
      | Run.indexOutOfRange => Run.indexOutOfRange
      | Run.outOfFuel => Run.outOfFuel

/-- Function `listExpirableUsers`; `shadow` is the content of `/etc/shadow`,
`none` when `os.Open` fails.  Every iteration that does not leave the loop
consumes at least one character, so `length + 1` iterations are enough. -/
def listExpirableUsers (getspnam : List Char → Option Spwd) (shadow : Option (List Char)) :
    Run (List ExpirableLogin) :=
  match shadow with
  | none => Run.done []
  | some content => readLoop getspnam (content.length + 1) content []

/-- A shadow database with three accounts: `ann` and `bob` have an account
expiration day, `eve` has none (`sp_expire = -1`) and a password that never
expires. -/
def sampleShadow : List Char → Option Spwd := fun login =>
  if login = ['a', 'n', 'n'] then some ⟨19000, 0, 90, 7, -1, 20000⟩
  else if login = ['b', 'o', 'b'] then some ⟨19000, 1, 60, 7, 14, 21000⟩
  else if login = ['e', 'v', 'e'] then some ⟨19000, 0, 99999, 7, -1, -1⟩
  else none

/-- The entry of the listing for `ann` of `sampleShadow`. -/
def annLogin : ExpirableLogin :=
  { Login := ['a', 'n', 'n']
    Expiration :=
      { PasswordLastChanged := 1641600000000000000
        PasswordInactive := 0
        PasswordExpires := 1649376000000000000
        AccountExpired := 1728000000000000000
        Min := 0
        Max := 90
        Warning := 7
        Expirable := true } }

/-- The entry of the listing for `bob` of `sampleShadow`. -/
def bobLogin : ExpirableLogin :=
  { Login := ['b', 'o', 'b']
    Expiration :=
      { PasswordLastChanged := 1641600000000000000
        PasswordInactive := 1209600000000000
        PasswordExpires := 1646784000000000000
        AccountExpired := 1814400000000000000
        Min := 1
        Max := 60
        Warning := 7
        Expirable := true } }

/-- The file `ann:x`, newline, `eve:y`, newline, `bob:z`, newline. -/
def shadowFile : List Char :=
  ['a', 'n', 'n', ':', 'x', Char.ofNat 10, 'e', 'v', 'e', ':', 'y', Char.ofNat 10,
    'b', 'o', 'b', ':', 'z', Char.ofNat 10]

/-- The file `ann:x`, newline, `eve:y`, newline, `bob:z`, whose last line is
not terminated by a newline. -/
def shadowFileUnterminated : List Char :=
  ['a', 'n', 'n', ':', 'x', Char.ofNat 10, 'e', 'v', 'e', ':', 'y', Char.ofNat 10,
    'b', 'o', 'b', ':', 'z']

/-! ## Theorems: rounding -/

theorem roundHalfEven_intCast (n : ℤ) : roundHalfEven (n : ℚ) = n := by
  simp [roundHalfEven]

theorem floor_le_roundHalfEven (x : ℚ) : ⌊x⌋ ≤ roundHalfEven x := by
  unfold roundHalfEven
  split_ifs <;> omega

theorem roundHalfEven_le_floor_succ (x : ℚ) : roundHalfEven x ≤ ⌊x⌋ + 1 := by
  unfold roundHalfEven
  split_ifs <;> omega

theorem roundHalfEven_mono {x y : ℚ} (h : x ≤ y) : roundHalfEven x ≤ roundHalfEven y := by
  rcases (Int.floor_mono h).lt_or_eq with hlt | heq
  · calc roundHalfEven x ≤ ⌊x⌋ + 1 := roundHalfEven_le_floor_succ x
      _ ≤ ⌊y⌋ := hlt
      _ ≤ roundHalfEven y := floor_le_roundHalfEven y
  · have hxy : x - (⌊y⌋ : ℚ) ≤ y - (⌊y⌋ : ℚ) := by linarith
    unfold roundHalfEven
    rw [heq]
    split_ifs <;> first | omega | (exfalso; linarith)

theorem succ_le_roundHalfEven {m : ℤ} {x : ℚ} (h : (m : ℚ) + 1 / 2 < x) :
    m + 1 ≤ roundHalfEven x := by
  have hm : m ≤ ⌊x⌋ := Int.le_floor.mpr (by linarith)
  rcases hm.lt_or_eq with hlt | heq
  · have := floor_le_roundHalfEven x
    omega
  · have hfrac : 1 / 2 < x - (⌊x⌋ : ℚ) := by rw [← heq]; linarith
    unfold roundHalfEven
    split_ifs with h1
    · exfalso; linarith
    · omega

theorem two_zpow_pos (e : ℤ) : (0 : ℚ) < 2 ^ e := zpow_pos (by norm_num) e

theorem log_two_eq {q : ℚ} {e : ℤ} (h1 : (2 : ℚ) ^ e ≤ q) (h2 : q < 2 ^ (e + 1)) :
    Int.log 2 q = e := by
  have hq : 0 < q := lt_of_lt_of_le (two_zpow_pos e) h1
  have ha : e ≤ Int.log 2 q :=
    (Int.zpow_le_iff_le_log (by norm_num) hq).mp (by exact_mod_cast h1)
  have hb : Int.log 2 q < e + 1 :=
    (Int.lt_zpow_iff_log_lt (by norm_num) hq).mp (by exact_mod_cast h2)
  omega

theorem two_zpow_log_le {q : ℚ} (hq : 0 < q) : (2 : ℚ) ^ Int.log 2 q ≤ q := by
  have := Int.zpow_log_le_self (b := 2) (by norm_num) hq
  exact_mod_cast this

theorem lt_two_zpow_log_succ (q : ℚ) : q < (2 : ℚ) ^ (Int.log 2 q + 1) := by
  have := Int.lt_zpow_succ_log_self (b := 2) (by norm_num) q
  exact_mod_cast this

theorem two_zpow_split (e : ℤ) : (2 : ℚ) ^ e = 4503599627370496 * 2 ^ (e - 52) := by
  have h : (2 : ℚ) ^ e = 2 ^ (52 : ℤ) * 2 ^ (e - 52) := by
    rw [← zpow_add₀ (by norm_num : (2 : ℚ) ≠ 0)]
    congr 1
    ring
  rw [h]
  norm_num

theorem two_zpow_succ (e : ℤ) : (2 : ℚ) ^ (e + 1) = 2 * 2 ^ e := by
  rw [zpow_add₀ (by norm_num : (2 : ℚ) ≠ 0)]
  ring

theorem two_zpow_le_roundPos {q : ℚ} (hq : 0 < q) : (2 : ℚ) ^ Int.log 2 q ≤ roundPos q := by
  have hu := two_zpow_pos (Int.log 2 q - 52)
  have h1 := two_zpow_log_le hq
  rw [two_zpow_split] at h1
  have h2 : ((4503599627370496 : ℤ) : ℚ) ≤ q / 2 ^ (Int.log 2 q - 52) := by
    rw [le_div_iff₀ hu]
    exact_mod_cast h1
  have h3 := roundHalfEven_mono h2
  rw [roundHalfEven_intCast] at h3
  have h4 : (4503599627370496 : ℚ) ≤ (roundHalfEven (q / 2 ^ (Int.log 2 q - 52)) : ℚ) := by
    exact_mod_cast h3
  rw [two_zpow_split]
  unfold roundPos
  exact mul_le_mul_of_nonneg_right h4 hu.le

theorem roundPos_le_two_zpow (q : ℚ) : roundPos q ≤ (2 : ℚ) ^ (Int.log 2 q + 1) := by
  have hu := two_zpow_pos (Int.log 2 q - 52)
  have h1 := lt_two_zpow_log_succ q
  rw [two_zpow_succ, two_zpow_split] at h1
  have h2 : q / 2 ^ (Int.log 2 q - 52) ≤ ((9007199254740992 : ℤ) : ℚ) := by
    rw [div_le_iff₀ hu]
    push_cast
    linarith
  have h3 := roundHalfEven_mono h2
  rw [roundHalfEven_intCast] at h3
  have h4 : (roundHalfEven (q / 2 ^ (Int.log 2 q - 52)) : ℚ) ≤ 9007199254740992 := by
    exact_mod_cast h3
  rw [two_zpow_succ, two_zpow_split]
  unfold roundPos
  have := mul_le_mul_of_nonneg_right h4 hu.le
  linarith

theorem roundPos_pos {q : ℚ} (hq : 0 < q) : 0 < roundPos q :=
  lt_of_lt_of_le (two_zpow_pos _) (two_zpow_le_roundPos hq)

theorem roundPos_mono {p q : ℚ} (hp : 0 < p) (h : p ≤ q) : roundPos p ≤ roundPos q := by
  have hq : 0 < q := lt_of_lt_of_le hp h
  rcases (Int.log_mono_right (b := 2) hp h).lt_or_eq with hlt | heq
  · calc roundPos p ≤ (2 : ℚ) ^ (Int.log 2 p + 1) := roundPos_le_two_zpow p
      _ ≤ (2 : ℚ) ^ Int.log 2 q := zpow_le_zpow_right₀ (by norm_num) (by omega)
      _ ≤ roundPos q := two_zpow_le_roundPos hq
  · have hu := two_zpow_pos (Int.log 2 q - 52)
    unfold roundPos
    rw [heq]
    have h1 : p / 2 ^ (Int.log 2 q - 52) ≤ q / 2 ^ (Int.log 2 q - 52) :=
      div_le_div_of_nonneg_right h hu.le
    have h2 : (roundHalfEven (p / 2 ^ (Int.log 2 q - 52)) : ℚ)
        ≤ (roundHalfEven (q / 2 ^ (Int.log 2 q - 52)) : ℚ) := by
      exact_mod_cast roundHalfEven_mono h1
    exact mul_le_mul_of_nonneg_right h2 hu.le

theorem roundF64_zero : roundF64 0 = 0 := by simp [roundF64]

theorem roundF64_of_pos {q : ℚ} (hq : 0 < q) : roundF64 q = roundPos q := by
  simp [roundF64, hq, hq.ne']

theorem roundF64_of_neg {q : ℚ} (hq : q < 0) : roundF64 q = -roundPos (-q) := by
  simp [roundF64, hq.ne, not_lt.mpr hq.le]

theorem roundF64_neg (q : ℚ) : roundF64 (-q) = -roundF64 q := by
  rcases lt_trichotomy q 0 with h | h | h
  · rw [roundF64_of_neg h, roundF64_of_pos (by linarith : 0 < -q), neg_neg]
  · subst h; simp [roundF64_zero]
  · rw [roundF64_of_pos h, roundF64_of_neg (by linarith : -q < 0), neg_neg]

theorem roundF64_nonneg {q : ℚ} (hq : 0 ≤ q) : 0 ≤ roundF64 q := by
  rcases hq.lt_or_eq with h | h
  · rw [roundF64_of_pos h]; exact (roundPos_pos h).le
  · rw [← h, roundF64_zero]

theorem roundF64_pos {q : ℚ} (hq : 0 < q) : 0 < roundF64 q := by
  rw [roundF64_of_pos hq]; exact roundPos_pos hq

theorem roundF64_mono {p q : ℚ} (h : p ≤ q) : roundF64 p ≤ roundF64 q := by
  rcases lt_trichotomy p 0 with hp | hp | hp
  · rcases lt_or_le q 0 with hq | hq
    · rw [roundF64_of_neg hp, roundF64_of_neg hq]
      have := roundPos_mono (by linarith : 0 < -q) (by linarith : -q ≤ -p)
      linarith
    · have h1 := roundF64_nonneg hq
      have h2 := roundPos_pos (by linarith : 0 < -p)
      rw [roundF64_of_neg hp]
      linarith
  · subst hp
    rw [roundF64_zero]
    exact roundF64_nonneg h
  · rw [roundF64_of_pos hp, roundF64_of_pos (lt_of_lt_of_le hp h)]
    exact roundPos_mono hp h

theorem roundPos_intCast {n : ℤ} (h0 : 0 < n) (h1 : n < 9007199254740992) :
    roundPos (n : ℚ) = n := by
  have hq : (0 : ℚ) < n := by exact_mod_cast h0
  have he0 : 0 ≤ Int.log 2 (n : ℚ) :=
    (Int.zpow_le_iff_le_log (by norm_num) hq).mp (by norm_num; exact_mod_cast h0)
  have he1 : Int.log 2 (n : ℚ) < 53 :=
    (Int.lt_zpow_iff_log_lt (by norm_num) hq).mp (by norm_num; exact_mod_cast h1)
  obtain ⟨k, hk⟩ : ∃ k : ℕ, (k : ℤ) = 52 - Int.log 2 (n : ℚ) :=
    ⟨(52 - Int.log 2 (n : ℚ)).toNat, Int.toNat_of_nonneg (by omega)⟩
  have hu : (2 : ℚ) ^ (Int.log 2 (n : ℚ) - 52) = ((2 : ℚ) ^ k)⁻¹ := by
    rw [← zpow_natCast, hk, ← zpow_neg]
    congr 1
    ring
  have hk0 : (0 : ℚ) < 2 ^ k := by positivity
  unfold roundPos
  rw [hu]
  have hcast : (n : ℚ) / ((2 : ℚ) ^ k)⁻¹ = ((n * 2 ^ k : ℤ) : ℚ) := by
    push_cast
    field_simp
  rw [hcast, roundHalfEven_intCast]
  push_cast
  field_simp

theorem roundF64_intCast {n : ℤ} (h0 : -9007199254740992 < n) (h1 : n < 9007199254740992) :
    roundF64 (n : ℚ) = n := by
  rcases lt_trichotomy n 0 with h | h | h
  · have hq : (n : ℚ) < 0 := by exact_mod_cast h
    rw [roundF64_of_neg hq]
    have := roundPos_intCast (n := -n) (by omega) (by omega)
    push_cast at this
    rw [this]
    ring
  · subst h
    simp [roundF64_zero]
  · have hq : (0 : ℚ) < n := by exact_mod_cast h
    rw [roundF64_of_pos hq]
    exact roundPos_intCast h h1

theorem roundHalfEven_eq_of {m : ℤ} {x : ℚ} (hlo : (m : ℚ) - 1 / 2 < x)
    (hhi : x < (m : ℚ) + 1 / 2) : roundHalfEven x = m := by
  rcases lt_or_le x (m : ℚ) with h | h
  · have hf : ⌊x⌋ = m - 1 := by
      rw [Int.floor_eq_iff]
      push_cast
      constructor <;> linarith
    unfold roundHalfEven
    rw [hf]
    push_cast
    split_ifs with h1 h2 h3
    · exfalso; linarith
    · omega
    · exfalso; linarith
    · omega
  · have hf : ⌊x⌋ = m := by
      rw [Int.floor_eq_iff]
      constructor <;> linarith
    unfold roundHalfEven
    rw [hf]
    split_ifs with h1 h2 h3
    · rfl
    · exfalso; linarith
    · rfl
    · exfalso; linarith

theorem roundPos_eq_of {q : ℚ} {e m : ℤ} (h1 : (2 : ℚ) ^ e ≤ q) (h2 : q < 2 ^ (e + 1))
    (hlo : (m : ℚ) - 1 / 2 < q / 2 ^ (e - 52)) (hhi : q / 2 ^ (e - 52) < (m : ℚ) + 1 / 2) :
    roundPos q = m * 2 ^ (e - 52) := by
  unfold roundPos
  rw [log_two_eq h1 h2, roundHalfEven_eq_of hlo hhi]

theorem lt_roundPos_of {K j : ℤ} {q : ℚ} (hj : j ≤ 52) (hK : (2 : ℚ) ^ j ≤ K)
    (hq2 : q < 2 ^ (j + 1)) (hq : (K : ℚ) + 2 ^ (j - 52) / 2 < q) :
    (K : ℚ) + 2 ^ (j - 52) ≤ roundPos q := by
  have hu := two_zpow_pos (j - 52)
  have h1 : (2 : ℚ) ^ j ≤ q := by linarith
  obtain ⟨k, hk⟩ : ∃ k : ℕ, (k : ℤ) = 52 - j := ⟨(52 - j).toNat, Int.toNat_of_nonneg (by omega)⟩
  have hu2 : (2 : ℚ) ^ (j - 52) = ((2 : ℚ) ^ k)⁻¹ := by
    rw [← zpow_natCast, hk, ← zpow_neg]
    congr 1
    ring
  have hk0 : (0 : ℚ) < 2 ^ k := by positivity
  have hM : ((K * 2 ^ k : ℤ) : ℚ) + 1 / 2 < q / 2 ^ (j - 52) := by
    rw [lt_div_iff₀ hu]
    have : (((K * 2 ^ k : ℤ) : ℚ) + 1 / 2) * 2 ^ (j - 52) = (K : ℚ) + 2 ^ (j - 52) / 2 := by
      rw [hu2]
      push_cast
      field_simp
      ring
    rw [this]
    exact hq
  have h3 : ((K * 2 ^ k : ℤ) : ℚ) + 1 ≤ (roundHalfEven (q / 2 ^ (j - 52)) : ℚ) := by
    exact_mod_cast succ_le_roundHalfEven hM
  unfold roundPos
  rw [log_two_eq h1 hq2]
  have h4 := mul_le_mul_of_nonneg_right h3 hu.le
  have h5 : (((K * 2 ^ k : ℤ) : ℚ) + 1) * 2 ^ (j - 52) = (K : ℚ) + 2 ^ (j - 52) := by
    rw [hu2]
    push_cast
    field_simp
  rw [h5] at h4
  exact h4

theorem roundF64_billionth :
    roundF64 (1 / 1000000000) = 4835703278458517 / 4835703278458516698824704 := by
  rw [roundF64_of_pos (by norm_num)]
  rw [roundPos_eq_of (e := -30) (m := 4835703278458517) (by norm_num) (by norm_num)
    (by norm_num) (by norm_num)]
  norm_num

/-! ## Theorems: durations and elapsed days -/

theorem tdiv_tmod_second (d : ℤ) :
    d.tdiv 1000000000 * 1000000000 + d.tmod 1000000000 = d
      ∧ (0 ≤ d → 0 ≤ d.tmod 1000000000 ∧ d.tmod 1000000000 < 1000000000)
      ∧ (d ≤ 0 → -1000000000 < d.tmod 1000000000 ∧ d.tmod 1000000000 ≤ 0) := by
  refine ⟨Int.tdiv_add_tmod' d 1000000000, ?_, ?_⟩
  · intro h
    exact ⟨Int.tmod_nonneg _ h, Int.tmod_lt_of_pos _ (by norm_num)⟩
  · intro h
    have h1 := Int.tmod_def d 1000000000
    have h2 := Int.tmod_def (-d) 1000000000
    rw [Int.neg_tdiv] at h2
    have h3 := Int.tmod_nonneg (1000000000 : ℤ) (by omega : (0 : ℤ) ≤ -d)
    have h4 := Int.tmod_lt_of_pos (-d) (by norm_num : (0 : ℤ) < 1000000000)
    constructor <;> omega

theorem billionths_nonneg {n : ℤ} (h : 0 ≤ n) : 0 ≤ roundF64 ((n : ℚ) / 1000000000) :=
  roundF64_nonneg (div_nonneg (by exact_mod_cast h) (by norm_num))

theorem billionths_le_one {n : ℤ} (h : n ≤ 1000000000) :
    roundF64 ((n : ℚ) / 1000000000) ≤ 1 := by
  have h1 : (n : ℚ) / 1000000000 ≤ ((1 : ℤ) : ℚ) := by
    rw [div_le_iff₀ (by norm_num)]
    push_cast
    have : (n : ℚ) ≤ 1000000000 := by exact_mod_cast h
    linarith
  have h2 := roundF64_mono h1
  rw [roundF64_intCast (by norm_num) (by norm_num)] at h2
  exact_mod_cast h2

theorem billionths_nonpos {n : ℤ} (h : n ≤ 0) : roundF64 ((n : ℚ) / 1000000000) ≤ 0 := by
  have h1 : (n : ℚ) / 1000000000 ≤ 0 :=
    div_nonpos_of_nonpos_of_nonneg (by exact_mod_cast h) (by norm_num)
  have h2 := roundF64_mono h1
  rwa [roundF64_zero] at h2

theorem neg_one_le_billionths {n : ℤ} (h : -1000000000 ≤ n) :
    -1 ≤ roundF64 ((n : ℚ) / 1000000000) := by
  have h1 : (((-1 : ℤ)) : ℚ) ≤ (n : ℚ) / 1000000000 := by
    rw [le_div_iff₀ (by norm_num)]
    push_cast
    have : (-1000000000 : ℚ) ≤ n := by exact_mod_cast h
    linarith
  have h2 := roundF64_mono h1
  rw [roundF64_intCast (by norm_num) (by norm_num)] at h2
  exact_mod_cast h2

theorem billionths_mono {m n : ℤ} (h : m ≤ n) :
    roundF64 ((m : ℚ) / 1000000000) ≤ roundF64 ((n : ℚ) / 1000000000) :=
  roundF64_mono (div_le_div_of_nonneg_right (by exact_mod_cast h) (by norm_num))

theorem Seconds_eq {d : ℤ} (h0 : minDuration ≤ d) (h1 : d ≤ maxDuration) :
    Duration.Seconds d
      = roundF64 ((d.tdiv 1000000000 : ℚ) + roundF64 ((d.tmod 1000000000 : ℚ) / 1000000000)) := by
  obtain ⟨hd, hpos, hneg⟩ := tdiv_tmod_second d
  unfold minDuration at h0
  unfold maxDuration at h1
  have hs : -9007199254740992 < d.tdiv 1000000000 ∧ d.tdiv 1000000000 < 9007199254740992 := by
    rcases le_total 0 d with h | h
    · have := hpos h
      omega
    · have := hneg h
      omega
  have hn : -9007199254740992 < d.tmod 1000000000 ∧ d.tmod 1000000000 < 9007199254740992 := by
    rcases le_total 0 d with h | h
    · have := hpos h
      omega
    · have := hneg h
      omega
  unfold Duration.Seconds fadd fdiv float64OfInt Second
  rw [roundF64_intCast hs.1 hs.2, roundF64_intCast hn.1 hn.2]

theorem Seconds_mono {d₁ d₂ : ℤ} (h0 : minDuration ≤ d₁) (h : d₁ ≤ d₂)
    (h1 : d₂ ≤ maxDuration) : Duration.Seconds d₁ ≤ Duration.Seconds d₂ := by
  rw [Seconds_eq h0 (le_trans h h1), Seconds_eq (le_trans h0 h) h1]
  apply roundF64_mono
  obtain ⟨e₁, p₁, n₁⟩ := tdiv_tmod_second d₁
  obtain ⟨e₂, p₂, n₂⟩ := tdiv_tmod_second d₂
  rcases le_total 0 d₁ with hd₁ | hd₁
  · have a₁ := p₁ hd₁
    have a₂ := p₂ (le_trans hd₁ h)
    rcases eq_or_ne (d₁.tdiv 1000000000) (d₂.tdiv 1000000000) with hs | hs
    · have hn : d₁.tmod 1000000000 ≤ d₂.tmod 1000000000 := by omega
      have := billionths_mono hn
      rw [hs]
      linarith
    · have hlt : d₁.tdiv 1000000000 + 1 ≤ d₂.tdiv 1000000000 := by omega
      have hq : (d₁.tdiv 1000000000 : ℚ) + 1 ≤ (d₂.tdiv 1000000000 : ℚ) := by exact_mod_cast hlt
      have b₁ := billionths_le_one (n := d₁.tmod 1000000000) (by omega)
      have b₂ := billionths_nonneg a₂.1
      linarith
  · rcases le_total d₂ 0 with hd₂ | hd₂
    · have a₁ := n₁ hd₁
      have a₂ := n₂ hd₂
      rcases eq_or_ne (d₁.tdiv 1000000000) (d₂.tdiv 1000000000) with hs | hs
      · have hn : d₁.tmod 1000000000 ≤ d₂.tmod 1000000000 := by omega
        have := billionths_mono hn
        rw [hs]
        linarith
      · have hlt : d₁.tdiv 1000000000 + 1 ≤ d₂.tdiv 1000000000 := by omega
        have hq : (d₁.tdiv 1000000000 : ℚ) + 1 ≤ (d₂.tdiv 1000000000 : ℚ) := by
          exact_mod_cast hlt
        have b₁ := billionths_nonpos a₁.2
        have b₂ := neg_one_le_billionths (n := d₂.tmod 1000000000) (by omega)
        linarith
    · have a₁ := n₁ hd₁
      have a₂ := p₂ hd₂
      have hs₁ : d₁.tdiv 1000000000 ≤ 0 := by omega
      have hs₂ : 0 ≤ d₂.tdiv 1000000000 := by omega
      have hq₁ : (d₁.tdiv 1000000000 : ℚ) ≤ 0 := by exact_mod_cast hs₁
      have hq₂ : (0 : ℚ) ≤ (d₂.tdiv 1000000000 : ℚ) := by exact_mod_cast hs₂
      have b₁ := billionths_nonpos a₁.2
      have b₂ := billionths_nonneg a₂.1
      linarith

theorem elapsedDays_mono {d₁ d₂ : ℤ} (h0 : minDuration ≤ d₁) (h : d₁ ≤ d₂)
    (h1 : d₂ ≤ maxDuration) : elapsedDays d₁ ≤ elapsedDays d₂ := by
  unfold elapsedDays intCeil fdiv
  apply Int.ceil_mono
  apply roundF64_mono
  exact div_le_div_of_nonneg_right (Seconds_mono h0 h h1) (by norm_num)

theorem Seconds_whole {s : ℤ} (h0 : -9223372036 ≤ s) (h1 : s ≤ 9223372036) :
    Duration.Seconds (s * Second) = s := by
  have hr0 : minDuration ≤ s * Second := by unfold minDuration Second; omega
  have hr1 : s * Second ≤ maxDuration := by unfold maxDuration Second; omega
  rw [Seconds_eq hr0 hr1]
  unfold Second
  rw [Int.mul_tdiv_cancel _ (by norm_num), Int.mul_tmod_left]
  simp only [Int.cast_zero, zero_div, roundF64_zero, add_zero]
  exact roundF64_intCast (by omega) (by omega)

theorem elapsedDays_whole {k : ℤ} (h0 : -106751 ≤ k) (h1 : k ≤ 106751) :
    elapsedDays (k * (24 * Hour)) = k := by
  have hd : k * (24 * Hour) = (k * 86400) * Second := by unfold Hour; ring
  unfold elapsedDays intCeil fdiv
  rw [hd, Seconds_whole (by omega) (by omega)]
  have : ((k * 86400 : ℤ) : ℚ) / 86400 = (k : ℚ) := by push_cast; field_simp
  rw [this, roundF64_intCast (by omega) (by omega)]
  exact Int.ceil_intCast k

theorem Seconds_le_of {d s : ℤ} (hd0 : minDuration ≤ d) (hd1 : d ≤ maxDuration)
    (hs0 : -9007199254740992 < s) (hs1 : s < 9007199254740992) (h : d ≤ s * Second) :
    Duration.Seconds d ≤ s := by
  rw [Seconds_eq hd0 hd1, ← roundF64_intCast hs0 hs1]
  apply roundF64_mono
  obtain ⟨e, p, n⟩ := tdiv_tmod_second d
  unfold Second at h
  rcases le_total 0 d with hd | hd
  · have a := p hd
    rcases eq_or_ne (d.tdiv 1000000000) s with hs | hs
    · have hn : d.tmod 1000000000 ≤ 0 := by omega
      have := billionths_nonpos hn
      rw [hs]
      linarith
    · have hlt : d.tdiv 1000000000 + 1 ≤ s := by omega
      have hq : (d.tdiv 1000000000 : ℚ) + 1 ≤ (s : ℚ) := by exact_mod_cast hlt
      have := billionths_le_one (n := d.tmod 1000000000) (by omega)
      linarith
  · have a := n hd
    have hle : d.tdiv 1000000000 ≤ s := by omega
    have hq : (d.tdiv 1000000000 : ℚ) ≤ (s : ℚ) := by exact_mod_cast hle
    have := billionths_nonpos a.2
    linarith

theorem le_Seconds_of {d s : ℤ} (hd0 : minDuration ≤ d) (hd1 : d ≤ maxDuration)
    (hs0 : -9007199254740992 < s) (hs1 : s < 9007199254740992) (h : s * Second ≤ d) :
    (s : ℚ) ≤ Duration.Seconds d := by
  rw [Seconds_eq hd0 hd1, ← roundF64_intCast hs0 hs1]
  apply roundF64_mono
  obtain ⟨e, p, n⟩ := tdiv_tmod_second d
  unfold Second at h
  rcases le_total 0 d with hd | hd
  · have a := p hd
    have hle : s ≤ d.tdiv 1000000000 := by omega
    have hq : (s : ℚ) ≤ (d.tdiv 1000000000 : ℚ) := by exact_mod_cast hle
    have := billionths_nonneg a.1
    linarith
  · have a := n hd
    rcases eq_or_ne (d.tdiv 1000000000) s with hs | hs
    · have hn : 0 ≤ d.tmod 1000000000 := by omega
      have := billionths_nonneg hn
      rw [hs]
      linarith
    · have hlt : s + 1 ≤ d.tdiv 1000000000 := by omega
      have hq : (s : ℚ) + 1 ≤ (d.tdiv 1000000000 : ℚ) := by exact_mod_cast hlt
      have := neg_one_le_billionths (n := d.tmod 1000000000) (by omega)
      linarith

theorem elapsedDays_le_of {d c : ℤ} (hd0 : minDuration ≤ d) (hd1 : d ≤ maxDuration)
    (hc0 : -200000 ≤ c) (hc1 : c ≤ 200000) (h : d ≤ c * (24 * Hour)) : elapsedDays d ≤ c := by
  have hs : Duration.Seconds d ≤ ((c * 86400 : ℤ) : ℚ) :=
    Seconds_le_of hd0 hd1 (by omega) (by omega) (by unfold Hour at h; unfold Second at *; omega)
  have hy : Duration.Seconds d / 86400 ≤ ((c : ℤ) : ℚ) := by
    rw [div_le_iff₀ (by norm_num)]
    push_cast at hs
    exact hs
  have hr := roundF64_mono hy
  rw [roundF64_intCast (by omega) (by omega)] at hr
  unfold elapsedDays intCeil fdiv
  exact Int.ceil_le.mpr hr

theorem le_elapsedDays_of {d f : ℤ} (hd0 : minDuration ≤ d) (hd1 : d ≤ maxDuration)
    (hf0 : -200000 ≤ f) (hf1 : f ≤ 200000) (h : f * (24 * Hour) ≤ d) : f ≤ elapsedDays d := by
  have hs : ((f * 86400 : ℤ) : ℚ) ≤ Duration.Seconds d :=
    le_Seconds_of hd0 hd1 (by omega) (by omega) (by unfold Hour at h; unfold Second at *; omega)
  have hy : ((f : ℤ) : ℚ) ≤ Duration.Seconds d / 86400 := by
    rw [le_div_iff₀ (by norm_num)]
    push_cast at hs
    exact hs
  have hr := roundF64_mono hy
  rw [roundF64_intCast (by omega) (by omega)] at hr
  unfold elapsedDays intCeil fdiv
  have hc := le_trans hr (Int.le_ceil (roundF64 (Duration.Seconds d / 86400)))
  exact_mod_cast hc

theorem intCast_succ_le_two_zpow {s e : ℤ} (he : 0 ≤ e) (h : (s : ℚ) < 2 ^ e) :
    (s : ℚ) + 1 ≤ 2 ^ e := by
  obtain ⟨n, rfl⟩ := Int.eq_ofNat_of_zero_le he
  rw [zpow_natCast] at h ⊢
  have h1 : s < 2 ^ n := by exact_mod_cast h
  have h2 : s + 1 ≤ 2 ^ n := by omega
  exact_mod_cast h2

theorem tdiv_tmod_day_succ {k : ℤ} (h0 : 0 ≤ k) :
    (k * (24 * Hour) + 1).tdiv 1000000000 = k * 86400
      ∧ (k * (24 * Hour) + 1).tmod 1000000000 = 1 := by
  obtain ⟨e, p, _⟩ := tdiv_tmod_second (k * (24 * Hour) + 1)
  have a := p (by unfold Hour Second; omega)
  unfold Hour Second at e a ⊢
  constructor <;> omega

/-- Two float64 roundings in a row, each forced up by one unit in the last
place: the sum of `s` whole seconds and the rounded nanosecond, then its
quotient by the `86400` seconds of a day, for `s = 86400 * k` below `2^24`. -/
theorem lt_round_quotient {k s : ℤ} (hk : 0 < k) (hs : s = k * 86400) (hs24 : s < 16777216) :
    (k : ℚ) < roundF64
      (roundF64 ((s : ℚ) + 4835703278458517 / 4835703278458516698824704) / 86400) := by
  have hkq : (1 : ℚ) ≤ k := by exact_mod_cast hk
  have hsq : (s : ℚ) = k * 86400 := by rw [hs]; push_cast; ring
  have hsq24 : (s : ℚ) < 16777216 := by exact_mod_cast hs24
  have hkpos : (0 : ℚ) < k := by linarith
  have hspos : (0 : ℚ) < (s : ℚ) := by rw [hsq]; linarith
  have hj0 : 0 ≤ Int.log 2 (k : ℚ) :=
    (Int.zpow_le_iff_le_log (by norm_num) hkpos).mp (by norm_num; exact hkq)
  have hji : Int.log 2 (k : ℚ) + 16 ≤ Int.log 2 (s : ℚ) := by
    apply (Int.zpow_le_iff_le_log (by norm_num) hspos).mp
    have := two_zpow_log_le hkpos
    have h16 : ((2 : ℕ) : ℚ) ^ (Int.log 2 (k : ℚ) + 16)
        = 2 ^ Int.log 2 (k : ℚ) * 65536 := by
      rw [zpow_add₀ (by norm_num)]
      norm_num
    rw [h16, hsq]
    nlinarith
  have hi23 : Int.log 2 (s : ℚ) < 24 := by
    apply (Int.lt_zpow_iff_log_lt (by norm_num) hspos).mp
    norm_num
    exact hsq24
  have h2i := two_zpow_log_le hspos
  have h2i1 := lt_two_zpow_log_succ (s : ℚ)
  have h2j := two_zpow_log_le hkpos
  have h2j1 := lt_two_zpow_log_succ (k : ℚ)
  have hsum1 := intCast_succ_le_two_zpow (by omega) h2i1
  have hk1 := intCast_succ_le_two_zpow (by omega) h2j1
  have hulp : (2 : ℚ) ^ (Int.log 2 (s : ℚ) - 52) ≤ 1 / 536870912 :=
    le_trans (zpow_le_zpow_right₀ (by norm_num) (by omega : Int.log 2 (s : ℚ) - 52 ≤ -29))
      (by norm_num)
  have hulp2 : (2 : ℚ) ^ (Int.log 2 (k : ℚ) - 52) * 65536
      ≤ 2 ^ (Int.log 2 (s : ℚ) - 52) := by
    have : (2 : ℚ) ^ (Int.log 2 (k : ℚ) - 52) * 65536
        = 2 ^ (Int.log 2 (k : ℚ) + 16 - 52) := by
      rw [show Int.log 2 (k : ℚ) + 16 - 52 = (Int.log 2 (k : ℚ) - 52) + 16 by ring,
        zpow_add₀ (by norm_num)]
      norm_num
    rw [this]
    exact zpow_le_zpow_right₀ (by norm_num) (by omega)
  have hupos := two_zpow_pos (Int.log 2 (k : ℚ) - 52)
  have hvpos := two_zpow_pos (Int.log 2 (s : ℚ) - 52)
  -- the sum of the whole seconds and the rounded nanosecond
  have hA : (s : ℚ) + 2 ^ (Int.log 2 (s : ℚ) - 52)
      ≤ roundF64 ((s : ℚ) + 4835703278458517 / 4835703278458516698824704) := by
    rw [roundF64_of_pos (by positivity)]
    apply lt_roundPos_of (by omega) h2i
    · linarith
    · linarith
  have hA1 : roundF64 ((s : ℚ) + 4835703278458517 / 4835703278458516698824704)
      ≤ (s : ℚ) + 1 := by
    have hm := roundF64_mono (p := (s : ℚ) + 4835703278458517 / 4835703278458516698824704)
        (q := ((s + 1 : ℤ) : ℚ)) (by push_cast; linarith)
    rw [roundF64_intCast (by omega) (by omega)] at hm
    push_cast at hm
    exact hm
  -- the quotient by the seconds of a day
  have hypos : 0 < roundF64 ((s : ℚ) + 4835703278458517 / 4835703278458516698824704)
      / 86400 := by
    apply div_pos _ (by norm_num)
    linarith
  rw [roundF64_of_pos hypos]
  have hB := lt_roundPos_of (K := k) (j := Int.log 2 (k : ℚ))
    (q := roundF64 ((s : ℚ) + 4835703278458517 / 4835703278458516698824704) / 86400)
    (by omega) h2j
    (by
      rw [div_lt_iff₀ (by norm_num)]
      nlinarith)
    (by
      rw [lt_div_iff₀ (by norm_num)]
      nlinarith)
  linarith

theorem succ_le_elapsedDays {k : ℤ} (h0 : 0 ≤ k) (h1 : k ≤ 194) :
    k + 1 ≤ elapsedDays (k * (24 * Hour) + 1) := by
  have hr0 : minDuration ≤ k * (24 * Hour) + 1 := by unfold minDuration Hour Second; omega
  have hr1 : k * (24 * Hour) + 1 ≤ maxDuration := by unfold maxDuration Hour Second; omega
  have hsec : Duration.Seconds (k * (24 * Hour) + 1)
      = roundF64 (((k * 86400 : ℤ) : ℚ)
          + 4835703278458517 / 4835703278458516698824704) := by
    rw [Seconds_eq hr0 hr1, (tdiv_tmod_day_succ h0).1, (tdiv_tmod_day_succ h0).2]
    rw [Int.cast_one, roundF64_billionth]
  have hgoal : (k : ℚ) < roundF64 (Duration.Seconds (k * (24 * Hour) + 1) / 86400) := by
    rw [hsec]
    rcases h0.lt_or_eq with hk | hk
    · exact lt_round_quotient hk rfl (by omega)
    · -- less than a day: the rounded nanosecond is positive
      subst hk
      apply roundF64_pos
      apply div_pos _ (by norm_num)
      apply roundF64_pos
      norm_num
  unfold elapsedDays intCeil fdiv
  have := Int.lt_ceil.mpr hgoal
  omega

theorem elapsedDays_195_days_1ns : elapsedDays (195 * (24 * Hour) + 1) = 195 := by
  have hr0 : minDuration ≤ 195 * (24 * Hour) + 1 := by unfold minDuration Hour Second; omega
  have hr1 : 195 * (24 * Hour) + 1 ≤ maxDuration := by unfold maxDuration Hour Second; omega
  have hsum : roundF64 ((16848000 : ℚ) + 4835703278458517 / 4835703278458516698824704)
      = 16848000 := by
    rw [roundF64_of_pos (by norm_num)]
    rw [roundPos_eq_of (e := 24) (m := 4522600562688000) (by norm_num) (by norm_num)
      (by norm_num) (by norm_num)]
    norm_num
  have hsec : Duration.Seconds (195 * (24 * Hour) + 1) = 16848000 := by
    rw [Seconds_eq hr0 hr1, (tdiv_tmod_day_succ (k := 195) (by norm_num)).1,
      (tdiv_tmod_day_succ (k := 195) (by norm_num)).2]
    rw [Int.cast_one, roundF64_billionth]
    have hc : ((195 * 86400 : ℤ) : ℚ) = 16848000 := by norm_num
    rw [hc]
    exact hsum
  unfold elapsedDays intCeil fdiv
  rw [hsec]
  have hq : (16848000 : ℚ) / 86400 = ((195 : ℤ) : ℚ) := by norm_num
  rw [hq, roundF64_intCast (by norm_num) (by norm_num)]
  exact Int.ceil_intCast 195

theorem Sub_bounds (t u : ℤ) : minDuration ≤ Time.Sub t u ∧ Time.Sub t u ≤ maxDuration := by
  unfold Time.Sub minDuration maxDuration
  split_ifs <;> omega

theorem Sub_mono {t₁ t₂ : ℤ} (u : ℤ) (h : t₁ ≤ t₂) : Time.Sub t₁ u ≤ Time.Sub t₂ u := by
  unfold Time.Sub minDuration maxDuration
  split_ifs <;> omega

theorem Sub_exact {t u : ℤ} (h0 : minDuration ≤ t - u) (h1 : t - u ≤ maxDuration) :
    Time.Sub t u = t - u := by
  unfold Time.Sub
  unfold minDuration at *
  unfold maxDuration at *
  split_ifs <;> omega

theorem elapsedDays_between {d : ℤ} (h0 : minDuration ≤ d) (h1 : d ≤ maxDuration) :
    d / 86400000000000 ≤ elapsedDays d ∧ elapsedDays d ≤ ceilDays d := by
  have hd0 := h0
  have hd1 := h1
  unfold minDuration at hd0
  unfold maxDuration at hd1
  constructor
  · exact le_elapsedDays_of h0 h1 (by omega) (by omega) (by unfold Hour Second; omega)
  · exact elapsedDays_le_of h0 h1 (by unfold ceilDays; omega) (by unfold ceilDays; omega)
      (by unfold ceilDays Hour Second; omega)

theorem elapsedDays_eq_ceilDays {d : ℤ} (h0 : 0 ≤ d) (h1 : d ≤ 195 * (24 * Hour)) :
    elapsedDays d = ceilDays d := by
  have hr0 : minDuration ≤ d := by unfold minDuration; omega
  have hr1 : d ≤ maxDuration := by unfold maxDuration; unfold Hour Second at h1; omega
  have hup := (elapsedDays_between hr0 hr1).2
  rcases h0.lt_or_eq with hpos | hzero
  · have hk0 : 0 ≤ ceilDays d - 1 := by unfold ceilDays; omega
    have hk1 : ceilDays d - 1 ≤ 194 := by unfold ceilDays; unfold Hour Second at h1; omega
    have hlow := succ_le_elapsedDays hk0 hk1
    have hm : elapsedDays ((ceilDays d - 1) * (24 * Hour) + 1) ≤ elapsedDays d :=
      elapsedDays_mono (by unfold minDuration Hour Second; omega)
        (by unfold ceilDays Hour Second; omega) hr1
    omega
  · subst hzero
    have := elapsedDays_whole (k := 0) (by norm_num) (by norm_num)
    rw [zero_mul] at this
    rw [this]
    unfold ceilDays
    norm_num

theorem ShouldWarnNow_iff_elapsedDays (e : ExpirableLogin) (now : ℤ)
    (h : e.Expiration.Max ≠ 99999) :
    e.ShouldWarnNow now = true ↔
      e.Expiration.Min ≤ elapsedDays (Time.Sub now e.Expiration.PasswordLastChanged)
        ∧ elapsedDays (Time.Sub now e.Expiration.PasswordLastChanged) ≤ e.Expiration.Warning := by
  unfold ExpirableLogin.ShouldWarnNow
  simp only [h, if_false]
  constructor
  · intro hw
    split_ifs at hw with hc
    exact ⟨hc.2, hc.1⟩
  · intro hc
    rw [if_pos ⟨hc.2, hc.1⟩]

theorem ShouldWarnNow_iff_ceilDays (e : ExpirableLogin) (now : ℤ)
    (h : e.Expiration.Max ≠ 99999) (h0 : 0 ≤ now - e.Expiration.PasswordLastChanged)
    (h1 : now - e.Expiration.PasswordLastChanged ≤ 195 * (24 * Hour)) :
    e.ShouldWarnNow now = true ↔
      e.Expiration.Min ≤ ceilDays (now - e.Expiration.PasswordLastChanged)
        ∧ ceilDays (now - e.Expiration.PasswordLastChanged) ≤ e.Expiration.Warning := by
  have hs : Time.Sub now e.Expiration.PasswordLastChanged
      = now - e.Expiration.PasswordLastChanged :=
    Sub_exact (by unfold minDuration; omega)
      (by unfold maxDuration; unfold Hour Second at h1; omega)
  rw [ShouldWarnNow_iff_elapsedDays e now h, hs, elapsedDays_eq_ceilDays h0 h1]

theorem ShouldWarnNow_false_of_max (e : ExpirableLogin) (now : ℤ)
    (h : e.Expiration.Max = 99999) : e.ShouldWarnNow now = false := by
  unfold ExpirableLogin.ShouldWarnNow
  rw [if_pos h]

theorem ShouldWarnNow_days_of_true (e : ExpirableLogin) (now : ℤ)
    (h : e.ShouldWarnNow now = true) :
    e.Expiration.Min ≤ elapsedDays (Time.Sub now e.Expiration.PasswordLastChanged)
      ∧ elapsedDays (Time.Sub now e.Expiration.PasswordLastChanged) ≤ e.Expiration.Warning := by
  by_cases hmax : e.Expiration.Max = 99999
  · rw [ShouldWarnNow_false_of_max e now hmax] at h
    exact absurd h (by decide)
  · exact (ShouldWarnNow_iff_elapsedDays e now hmax).mp h

/-! ## Theorems: the claims on the policy evaluation -/

/-- C1, counterexample: last change at the epoch, `warning = 195`, `min = 0`,
`max = 400`, evaluated one nanosecond after 195 whole days.  The exact ceiling
of the elapsed days is 196, above `warning`, yet `ShouldWarnNow` returns
true: the float64 sum of `16848000` seconds and `1e-9` is `16848000`. -/
theorem ShouldWarnNow_drops_day_fraction :
    longWarningLogin.Expiration.Max ≠ 99999
      ∧ longWarningLogin.ShouldWarnNow (195 * (24 * Hour) + 1) = true
      ∧ ceilDays (195 * (24 * Hour) + 1 - longWarningLogin.Expiration.PasswordLastChanged) = 196
      ∧ ¬ (longWarningLogin.Expiration.Min
            ≤ ceilDays (195 * (24 * Hour) + 1 - longWarningLogin.Expiration.PasswordLastChanged)
          ∧ ceilDays (195 * (24 * Hour) + 1 - longWarningLogin.Expiration.PasswordLastChanged)
            ≤ longWarningLogin.Expiration.Warning) := by
  have hc : ceilDays (195 * (24 * Hour) + 1 - longWarningLogin.Expiration.PasswordLastChanged)
      = 196 := by decide
  refine ⟨by decide, ?_, hc, ?_⟩
  · rw [ShouldWarnNow_iff_elapsedDays _ _ (by decide)]
    have hs : Time.Sub (195 * (24 * Hour) + 1) longWarningLogin.Expiration.PasswordLastChanged
        = 195 * (24 * Hour) + 1 := by decide
    rw [hs, elapsedDays_195_days_1ns]
    decide
  · rw [hc]
    decide

/-- C1, amended: for a record with `Max != 99999`, `ShouldWarnNow` returns true
exactly when `Min <= days <= Warning` for the `days` the code computes in
float64 from the elapsed time saturated to a `Duration`; when the elapsed time
is between 0 and 195 days, `days` is the exact ceiling of the elapsed days, so
any partial day counts as a full day; at every instant `days` lies between the
floor and the ceiling of the exact quotient. -/
theorem ShouldWarnNow_iff_days (e : ExpirableLogin) (now : ℤ)
    (h : e.Expiration.Max ≠ 99999) :
    (e.ShouldWarnNow now = true ↔
        e.Expiration.Min ≤ elapsedDays (Time.Sub now e.Expiration.PasswordLastChanged)
          ∧ elapsedDays (Time.Sub now e.Expiration.PasswordLastChanged)
            ≤ e.Expiration.Warning)
      ∧ (0 ≤ now - e.Expiration.PasswordLastChanged →
          now - e.Expiration.PasswordLastChanged ≤ 195 * (24 * Hour) →
          (e.ShouldWarnNow now = true ↔
            e.Expiration.Min ≤ ceilDays (now - e.Expiration.PasswordLastChanged)
              ∧ ceilDays (now - e.Expiration.PasswordLastChanged) ≤ e.Expiration.Warning))
      ∧ Time.Sub now e.Expiration.PasswordLastChanged / 86400000000000
          ≤ elapsedDays (Time.Sub now e.Expiration.PasswordLastChanged)
      ∧ elapsedDays (Time.Sub now e.Expiration.PasswordLastChanged)
          ≤ ceilDays (Time.Sub now e.Expiration.PasswordLastChanged) :=
  ⟨ShouldWarnNow_iff_elapsedDays e now h,
    fun h0 h1 => ShouldWarnNow_iff_ceilDays e now h h0 h1,
    elapsedDays_between (Sub_bounds _ _).1 (Sub_bounds _ _).2⟩

/-- C1, witness: the record `lastChangedDay = 0`, `max = 90`, `warning = 7`,
`min = 0` is warned about five days after the epoch (scenario B) and not 85
days after it (scenario A). -/
theorem ShouldWarnNow_iff_days_witness :
    scenarioLogin.Expiration.Max ≠ 99999
      ∧ scenarioLogin.ShouldWarnNow (5 * (24 * Hour)) = true
      ∧ scenarioLogin.ShouldWarnNow (85 * (24 * Hour)) = false :=
  ⟨by decide,
    ((ShouldWarnNow_iff_days scenarioLogin (5 * (24 * Hour)) (by decide)).2.1
      (by decide) (by decide)).mpr (by decide),
    Bool.eq_false_iff.mpr fun hw =>
      absurd
        (((ShouldWarnNow_iff_days scenarioLogin (85 * (24 * Hour)) (by decide)).2.1
          (by decide) (by decide)).mp hw)
        (by decide)⟩

/-- C2: a record with `Max == 99999` is never warned about, whatever its other
fields and the instant. -/
theorem ShouldWarnNow_never_expires (e : ExpirableLogin) (now : ℤ)
    (h : e.Expiration.Max = 99999) : e.ShouldWarnNow now = false :=
  ShouldWarnNow_false_of_max e now h

/-- C2, witness: `max = 99999` with `warning = 7`, `min = 0`, three days after
the last change, inside what would be the warning window. -/
theorem ShouldWarnNow_never_expires_witness :
    neverExpiresLogin.Expiration.Max = 99999
      ∧ neverExpiresLogin.ShouldWarnNow (3 * (24 * Hour)) = false :=
  ⟨rfl, ShouldWarnNow_never_expires neverExpiresLogin (3 * (24 * Hour)) rfl⟩

/-- C8, counterexample: the set of elapsed-day values with a true answer is not
the range `[Min, Warning]`.  One nanosecond after 195 whole days the elapsed
days, rounded up, are 196, inside `[196, 300]`, yet `ShouldWarnNow` returns
false, the float64 day count being 195; and the record with `max = 99999`
is not warned about on day 3, inside its range `[0, 7]`. -/
theorem ShouldWarnNow_range_not_exact :
    (lateWindowLogin.Expiration.Min
        ≤ ceilDays (195 * (24 * Hour) + 1 - lateWindowLogin.Expiration.PasswordLastChanged)
      ∧ ceilDays (195 * (24 * Hour) + 1 - lateWindowLogin.Expiration.PasswordLastChanged)
        ≤ lateWindowLogin.Expiration.Warning
      ∧ lateWindowLogin.ShouldWarnNow (195 * (24 * Hour) + 1) = false)
    ∧ (neverExpiresLogin.Expiration.Min
        ≤ ceilDays (3 * (24 * Hour) - neverExpiresLogin.Expiration.PasswordLastChanged)
      ∧ ceilDays (3 * (24 * Hour) - neverExpiresLogin.Expiration.PasswordLastChanged)
        ≤ neverExpiresLogin.Expiration.Warning
      ∧ neverExpiresLogin.ShouldWarnNow (3 * (24 * Hour)) = false) := by
  refine ⟨⟨by decide, by decide, ?_⟩, by decide, by decide,
    ShouldWarnNow_false_of_max _ _ rfl⟩
  apply Bool.eq_false_iff.mpr
  intro hw
  have hd := (ShouldWarnNow_iff_elapsedDays lateWindowLogin _ (by decide)).mp hw
  have hs : Time.Sub (195 * (24 * Hour) + 1) lateWindowLogin.Expiration.PasswordLastChanged
      = 195 * (24 * Hour) + 1 := by decide
  rw [hs, elapsedDays_195_days_1ns] at hd
  exact absurd hd.1 (by decide)

/-- C8, amended: for a fixed record the instants at which `ShouldWarnNow` is
true form one contiguous stretch; with `Max == 99999` it is false at every
instant; with `Max != 99999` it is true exactly when the float64 day count lies
in `[Min, Warning]`, which for an elapsed time between 0 and 195 days is the
exact ceiling of the elapsed days; at every instant a true answer needs
`Min <= ceil(elapsed / 1 day)` and `floor(elapsed / 1 day) <= Warning`, and
`Min <= floor` with `ceil <= Warning` gives a true answer; with `Min > Warning`
it is false at every instant. -/
theorem ShouldWarnNow_contiguous (e : ExpirableLogin) :
    (∀ t₁ t₂ t₃ : ℤ, t₁ ≤ t₂ → t₂ ≤ t₃ →
        e.ShouldWarnNow t₁ = true → e.ShouldWarnNow t₃ = true → e.ShouldWarnNow t₂ = true)
      ∧ (e.Expiration.Max = 99999 → ∀ now, e.ShouldWarnNow now = false)
      ∧ (e.Expiration.Max ≠ 99999 → ∀ now,
          (e.ShouldWarnNow now = true ↔
            e.Expiration.Min ≤ elapsedDays (Time.Sub now e.Expiration.PasswordLastChanged)
              ∧ elapsedDays (Time.Sub now e.Expiration.PasswordLastChanged)
                ≤ e.Expiration.Warning))
      ∧ (e.Expiration.Max ≠ 99999 → ∀ now,
          0 ≤ now - e.Expiration.PasswordLastChanged →
          now - e.Expiration.PasswordLastChanged ≤ 195 * (24 * Hour) →
          (e.ShouldWarnNow now = true ↔
            e.Expiration.Min ≤ ceilDays (now - e.Expiration.PasswordLastChanged)
              ∧ ceilDays (now - e.Expiration.PasswordLastChanged) ≤ e.Expiration.Warning))
      ∧ (∀ now, e.ShouldWarnNow now = true →
          e.Expiration.Min ≤ ceilDays (Time.Sub now e.Expiration.PasswordLastChanged)
            ∧ Time.Sub now e.Expiration.PasswordLastChanged / 86400000000000
              ≤ e.Expiration.Warning)
      ∧ (e.Expiration.Max ≠ 99999 → ∀ now,
          e.Expiration.Min ≤ Time.Sub now e.Expiration.PasswordLastChanged / 86400000000000 →
          ceilDays (Time.Sub now e.Expiration.PasswordLastChanged) ≤ e.Expiration.Warning →
          e.ShouldWarnNow now = true)
      ∧ (e.Expiration.Warning < e.Expiration.Min → ∀ now, e.ShouldWarnNow now = false) := by
  refine ⟨?_, fun hmax now => ShouldWarnNow_false_of_max e now hmax,
    fun hmax now => ShouldWarnNow_iff_elapsedDays e now hmax,
    fun hmax now h0 h1 => ShouldWarnNow_iff_ceilDays e now hmax h0 h1, ?_, ?_, ?_⟩
  · intro t₁ t₂ t₃ h₁₂ h₂₃ hw₁ hw₃
    have hmax : e.Expiration.Max ≠ 99999 := by
      intro hmax
      rw [ShouldWarnNow_false_of_max e t₁ hmax] at hw₁
      exact absurd hw₁ (by decide)
    have d₁ := ShouldWarnNow_days_of_true e t₁ hw₁
    have d₃ := ShouldWarnNow_days_of_true e t₃ hw₃
    have m₁₂ := elapsedDays_mono (Sub_bounds t₁ e.Expiration.PasswordLastChanged).1
      (Sub_mono e.Expiration.PasswordLastChanged h₁₂)
      (Sub_bounds t₂ e.Expiration.PasswordLastChanged).2
    have m₂₃ := elapsedDays_mono (Sub_bounds t₂ e.Expiration.PasswordLastChanged).1
      (Sub_mono e.Expiration.PasswordLastChanged h₂₃)
      (Sub_bounds t₃ e.Expiration.PasswordLastChanged).2
    exact (ShouldWarnNow_iff_elapsedDays e t₂ hmax).mpr ⟨by omega, by omega⟩
  · intro now hw
    have hd := ShouldWarnNow_days_of_true e now hw
    have hb := elapsedDays_between (Sub_bounds now e.Expiration.PasswordLastChanged).1
      (Sub_bounds now e.Expiration.PasswordLastChanged).2
    exact ⟨by omega, by omega⟩
  · intro hmax now hmin hwarn
    have hb := elapsedDays_between (Sub_bounds now e.Expiration.PasswordLastChanged).1
      (Sub_bounds now e.Expiration.PasswordLastChanged).2
    exact (ShouldWarnNow_iff_elapsedDays e now hmax).mpr ⟨by omega, by omega⟩
  · intro hlt now
    cases hb : e.ShouldWarnNow now
    · rfl
    · have := ShouldWarnNow_days_of_true e now hb
      omega

/-- C8, witness: the scenario record (`min = 0`, `warning = 7`) is warned about
two days and six days after the last change, hence also four and a half days
after it, and not 85 days after it; the record with `min = 10` above
`warning = 7` is not warned about on day 8. -/
theorem ShouldWarnNow_contiguous_witness :
    scenarioLogin.ShouldWarnNow (2 * (24 * Hour)) = true
      ∧ scenarioLogin.ShouldWarnNow (6 * (24 * Hour)) = true
      ∧ scenarioLogin.ShouldWarnNow (4 * (24 * Hour) + 12 * Hour) = true
      ∧ scenarioLogin.ShouldWarnNow (85 * (24 * Hour)) = false
      ∧ emptyWindowLogin.ShouldWarnNow (8 * (24 * Hour)) = false := by
  have h2 : scenarioLogin.ShouldWarnNow (2 * (24 * Hour)) = true :=
    ((ShouldWarnNow_contiguous scenarioLogin).2.2.2.1 (by decide) (2 * (24 * Hour))
      (by decide) (by decide)).mpr (by decide)
  have h6 : scenarioLogin.ShouldWarnNow (6 * (24 * Hour)) = true :=
    ((ShouldWarnNow_contiguous scenarioLogin).2.2.2.1 (by decide) (6 * (24 * Hour))
      (by decide) (by decide)).mpr (by decide)
  have h85 : scenarioLogin.ShouldWarnNow (85 * (24 * Hour)) = false :=
    Bool.eq_false_iff.mpr fun hw =>
      absurd
        (((ShouldWarnNow_contiguous scenarioLogin).2.2.2.1 (by decide) (85 * (24 * Hour))
          (by decide) (by decide)).mp hw)
        (by decide)
  exact ⟨h2, h6,
    (ShouldWarnNow_contiguous scenarioLogin).1 (2 * (24 * Hour)) (4 * (24 * Hour) + 12 * Hour)
      (6 * (24 * Hour)) (by decide) (by decide) h2 h6,
    h85,
    (ShouldWarnNow_contiguous emptyWindowLogin).2.2.2.2.2.2 (by decide) (8 * (24 * Hour))⟩

/-! ## Theorems: the claims on the date derivation -/

theorem wrapInt64_of_fits {x : ℤ} (h0 : -9223372036854775808 ≤ x)
    (h1 : x ≤ 9223372036854775807) : wrapInt64 x = x := by
  unfold wrapInt64
  omega

theorem daysDuration_of_fits {d : ℤ} (h0 : -106751 ≤ d) (h1 : d ≤ 106751) :
    daysDuration d = d * (24 * Hour) := by
  unfold daysDuration
  apply wrapInt64_of_fits <;> unfold Hour Second <;> omega

theorem wrapInt64_eq_zero_iff (x : ℤ) : wrapInt64 x = 0 ↔ 18446744073709551616 ∣ x := by
  unfold wrapInt64
  omega

theorem daysDuration_eq_zero_iff (d : ℤ) : daysDuration d = 0 ↔ 281474976710656 ∣ d := by
  unfold daysDuration
  rw [wrapInt64_eq_zero_iff]
  have hday : d * (24 * Hour) = 65536 * (d * 1318359375) := by
    unfold Hour Second
    ring
  rw [hday]
  constructor
  · intro h
    have h2 : (65536 : ℤ) * 281474976710656 ∣ 65536 * (d * 1318359375) := by
      norm_num at h ⊢
      exact h
    have h3 : (281474976710656 : ℤ) ∣ d * 1318359375 :=
      Int.dvd_of_mul_dvd_mul_left (by norm_num) h2
    have hco : IsCoprime (281474976710656 : ℤ) 1318359375 := by
      rw [Int.isCoprime_iff_gcd_eq_one]
      norm_num
    exact hco.dvd_of_dvd_mul_right h3
  · rintro ⟨c, rfl⟩
    exact ⟨c * 1318359375, by ring⟩

theorem timeFromEpoch_of_ne {v : ℤ} (h : v ≠ -1) :
    timeFromEpoch v = Time.Add localEpoch (daysDuration v) := by
  unfold timeFromEpoch
  rw [if_neg h]

theorem getLoginExpiration_of_max {getspnam : List Char → Option Spwd} {login : List Char}
    {sp : Spwd} (h : getspnam login = some sp) (hmax : sp.sp_max = 99999) :
    getLoginExpiration getspnam login = some
      { PasswordLastChanged := timeFromEpoch sp.sp_lstchg
        PasswordInactive := neverMarker
        PasswordExpires := neverMarker
        AccountExpired := timeFromEpoch sp.sp_expire
        Warning := sp.sp_warn
        Max := sp.sp_max
        Min := sp.sp_min
        Expirable := decide (sp.sp_expire > -1) } := by
  unfold getLoginExpiration
  rw [h]
  simp only [hmax, if_true]

theorem getLoginExpiration_of_ne_max {getspnam : List Char → Option Spwd} {login : List Char}
    {sp : Spwd} (h : getspnam login = some sp) (hmax : sp.sp_max ≠ 99999) :
    getLoginExpiration getspnam login = some
      { PasswordLastChanged := timeFromEpoch sp.sp_lstchg
        PasswordInactive := timeFromEpoch sp.sp_inact
        PasswordExpires := Time.Add (timeFromEpoch sp.sp_lstchg) (daysDuration sp.sp_max)
        AccountExpired := timeFromEpoch sp.sp_expire
        Warning := sp.sp_warn
        Max := sp.sp_max
        Min := sp.sp_min
        Expirable := decide (sp.sp_expire > -1) } := by
  unfold getLoginExpiration
  rw [h]
  simp only [hmax, if_false]

/-- C3, counterexample: for the day count `106752` the `int64` product
`106752 * 24h` wraps around, and `timeFromEpoch` returns an instant before the
epoch instead of the epoch plus 106752 days. -/
theorem timeFromEpoch_wraps :
    (106752 : ℤ) ≠ -1 ∧ (0 : ℤ) ≤ 106752
      ∧ timeFromEpoch 106752 = Time.Add localEpoch (-9223371273709551616)
      ∧ timeFromEpoch 106752 ≠ Time.Add localEpoch (106752 * (24 * Hour)) := by
  decide

/-- C3, amended: `timeFromEpoch(-1)` is the never marker, and for every other
day count `v` with `-106751 <= v <= 106751`, the range in which `v * 24h` fits
a `Duration`, `timeFromEpoch(v)` is the local epoch plus exactly `v` days. -/
theorem timeFromEpoch_exact (v : ℤ) (hv : v ≠ -1) (h0 : -106751 ≤ v) (h1 : v ≤ 106751) :
    timeFromEpoch (-1) = neverMarker
      ∧ timeFromEpoch v = Time.Add localEpoch (v * (24 * Hour)) := by
  refine ⟨by decide, ?_⟩
  rw [timeFromEpoch_of_ne hv, daysDuration_of_fits h0 h1]

/-- C3, witness: day 19000 (January 2022). -/
theorem timeFromEpoch_exact_witness :
    timeFromEpoch (-1) = neverMarker
      ∧ timeFromEpoch 19000 = Time.Add localEpoch (19000 * (24 * Hour)) :=
  timeFromEpoch_exact 19000 (by decide) (by decide) (by decide)

/-- C4: a shadow record with `max == 99999` yields an `ExpirationInfo` whose
`PasswordExpires` and `PasswordInactive` are both the never marker. -/
theorem getLoginExpiration_never (getspnam : List Char → Option Spwd) (login : List Char)
    (sp : Spwd) (h : getspnam login = some sp) (hmax : sp.sp_max = 99999) :
    ∃ info, getLoginExpiration getspnam login = some info
      ∧ info.PasswordExpires = neverMarker ∧ info.PasswordInactive = neverMarker :=
  ⟨_, getLoginExpiration_of_max h hmax, rfl, rfl⟩

/-- C4, witness: scenario E, `max = 99999`, `inactiveDays = 5`,
`lastChangedDay = 0`. -/
theorem getLoginExpiration_never_witness :
    ∃ info, getLoginExpiration (fun _ => some ⟨0, 0, 99999, 7, 5, -1⟩) ['e', 'v', 'e'] = some info
      ∧ info.PasswordExpires = neverMarker ∧ info.PasswordInactive = neverMarker :=
  getLoginExpiration_never (fun _ => some ⟨0, 0, 99999, 7, 5, -1⟩) ['e', 'v', 'e']
    ⟨0, 0, 99999, 7, 5, -1⟩ rfl rfl

/-- C5, counterexample: with `lastChangedDay = 0` and `max = 106752` the
`int64` product `max * 24h` wraps around and `PasswordExpires` falls before the
epoch, not 106752 days after `timeFromEpoch(0)`. -/
theorem getLoginExpiration_wraps :
    (106752 : ℤ) ≠ 99999
      ∧ (getLoginExpiration (fun _ => some ⟨0, 0, 106752, 7, -1, -1⟩) ['b', 'o', 'b']).map
          (fun info => info.PasswordExpires) = some (-9223371273709551616)
      ∧ (getLoginExpiration (fun _ => some ⟨0, 0, 106752, 7, -1, -1⟩) ['b', 'o', 'b']).map
          (fun info => info.PasswordExpires)
        ≠ some (Time.Add (timeFromEpoch 0) (106752 * (24 * Hour))) := by
  decide

/-- C5, amended: a shadow record with `max != 99999` and
`-106751 <= max <= 106751`, the range in which `max * 24h` fits a `Duration`,
yields `PasswordExpires == timeFromEpoch(lastChangedDay) + max days`, and
`PasswordInactive` stays `timeFromEpoch(inactiveDays)`. -/
theorem getLoginExpiration_expires (getspnam : List Char → Option Spwd) (login : List Char)
    (sp : Spwd) (h : getspnam login = some sp) (hmax : sp.sp_max ≠ 99999)
    (h0 : -106751 ≤ sp.sp_max) (h1 : sp.sp_max ≤ 106751) :
    ∃ info, getLoginExpiration getspnam login = some info
      ∧ info.PasswordExpires = Time.Add (timeFromEpoch sp.sp_lstchg) (sp.sp_max * (24 * Hour))
      ∧ info.PasswordInactive = timeFromEpoch sp.sp_inact :=
  ⟨_, getLoginExpiration_of_ne_max h hmax, by rw [daysDuration_of_fits h0 h1], rfl⟩

/-- C5, witness: `lastChangedDay = 19000`, `max = 90`, `inactiveDays = 14`. -/
theorem getLoginExpiration_expires_witness :
    ∃ info, getLoginExpiration (fun _ => some ⟨19000, 0, 90, 7, 14, -1⟩) ['a', 'n', 'n'] = some info
      ∧ info.PasswordExpires = Time.Add (timeFromEpoch 19000) (90 * (24 * Hour))
      ∧ info.PasswordInactive = timeFromEpoch 14 :=
  getLoginExpiration_expires (fun _ => some ⟨19000, 0, 90, 7, 14, -1⟩) ['a', 'n', 'n']
    ⟨19000, 0, 90, 7, 14, -1⟩ rfl (by decide) (by decide) (by decide)

/-- C6, counterexample: the valid day count `0` yields the never marker itself,
and the never test of the report holds for it. -/
theorem timeFromEpoch_zero_is_never :
    (0 : ℤ) ≤ 0 ∧ timeFromEpoch 0 = neverMarker ∧ isNever (timeFromEpoch 0) = true := by
  decide

/-- C6, amended: `timeFromEpoch(v)` equals the never marker, and the never test
of the report holds for it, exactly when `v` is the sentinel `-1` or a multiple
of `2^48` (day 0 among them, the others being where `v * 24h` wraps around to
zero); every day count from 1 to `2^48 - 1` yields a date distinct from the
never marker. -/
theorem isNever_timeFromEpoch_iff (v : ℤ) :
    (isNever (timeFromEpoch v) = true ↔ v = -1 ∨ 281474976710656 ∣ v)
      ∧ (1 ≤ v → v < 281474976710656 → timeFromEpoch v ≠ neverMarker) := by
  have key : timeFromEpoch v = neverMarker ↔ v = -1 ∨ 281474976710656 ∣ v := by
    by_cases hv : v = -1
    · subst hv
      simp [timeFromEpoch]
    · rw [timeFromEpoch_of_ne hv]
      have := daysDuration_eq_zero_iff v
      unfold Time.Add neverMarker localEpoch
      constructor
      · intro h
        right
        exact this.mp (by omega)
      · rintro (h | h)
        · exact absurd h hv
        · have := this.mpr h
          omega
  refine ⟨?_, ?_⟩
  · unfold isNever
    rw [decide_eq_true_iff]
    exact key
  · intro h1 h2 hn
    rcases key.mp hn with h | h
    · omega
    · omega

/-- C6, witness: day 19000 is not reported as never. -/
theorem isNever_timeFromEpoch_iff_witness :
    (1 : ℤ) ≤ 19000 ∧ timeFromEpoch 19000 ≠ neverMarker :=
  ⟨by decide, (isNever_timeFromEpoch_iff 19000).2 (by decide) (by decide)⟩

/-! ## Theorems: the claims on the enumeration -/

theorem genSplitLoop_head (sep : List Char) (n : ℕ) (s : List Char) :
    ∃ h t, genSplitLoop sep n s = h :: t := by
  cases n with
  | zero => exact ⟨s, [], rfl⟩
  | succ n =>
    unfold genSplitLoop
    cases Index s sep with
    | none => exact ⟨s, [], rfl⟩
    | some m => exact ⟨_, _, rfl⟩

theorem SplitN_head (s sep : List Char) (n : ℕ) :
    ∃ h t, SplitN s sep (n + 1) = h :: t := by
  unfold SplitN
  rw [if_neg (Nat.succ_ne_zero n)]
  exact genSplitLoop_head _ _ _

theorem Index_colon_of_not_mem {s : List Char} (h : ':' ∉ s) : Index s [':'] = none := by
  induction s with
  | nil => simp [Index]
  | cons c s ih =>
    have hc : c ≠ ':' := fun hc => h (by simp [hc])
    have hs : ':' ∉ s := fun hs => h (List.mem_cons_of_mem c hs)
    unfold Index
    simp [HasPrefix, hc, ih hs]

theorem SplitN_of_no_colon {s : List Char} (h : ':' ∉ s) : SplitN s [':'] 2 = [s] := by
  unfold SplitN
  rw [if_neg (by decide)]
  cases hn : min 2 (s.length + 1) - 1 with
  | zero => rfl
  | succ n =>
    unfold genSplitLoop
    rw [Index_colon_of_not_mem h]

theorem mem_of_mem_TrimSpace {c : Char} {s : List Char} (h : c ∈ TrimSpace s) : c ∈ s := by
  unfold TrimSpace at h
  rw [List.mem_reverse] at h
  have h1 := (List.dropWhile_sublist isSpace).subset h
  rw [List.mem_reverse] at h1
  exact (List.dropWhile_sublist isSpace).subset h1

theorem getLoginExpiration_some {getspnam : List Char → Option Spwd} {login : List Char}
    {info : ExpirationInfo} (h : getLoginExpiration getspnam login = some info) :
    ∃ sp, getspnam login = some sp ∧ info.Expirable = decide (sp.sp_expire > -1) := by
  unfold getLoginExpiration at h
  cases hsp : getspnam login with
  | none => rw [hsp] at h; exact absurd h (by simp)
  | some sp =>
    rw [hsp] at h
    refine ⟨sp, rfl, ?_⟩
    by_cases hmax : sp.sp_max = 99999
    · simp only [hmax, if_true, Option.some.injEq] at h
      rw [← h]
    · simp only [hmax, if_false, Option.some.injEq] at h
      rw [← h]

theorem getLoginExpiration_isSome {getspnam : List Char → Option Spwd} {login : List Char}
    {sp : Spwd} (h : getspnam login = some sp) :
    ∃ info, getLoginExpiration getspnam login = some info
      ∧ info.Expirable = decide (sp.sp_expire > -1) := by
  by_cases hmax : sp.sp_max = 99999
  · exact ⟨_, getLoginExpiration_of_max h hmax, rfl⟩
  · exact ⟨_, getLoginExpiration_of_ne_max h hmax, rfl⟩

/-- The entries of a listing come from the database and are expirable. -/
theorem handleLine_done (getspnam : List Char → Option Spwd) (line : List Char)
    (users : List ExpirableLogin) :
    ∃ users', handleLine getspnam line users = Run.done users'
      ∧ (users' = users ∨ ∃ u, users' = users ++ [u]
          ∧ getLoginExpiration getspnam u.Login = some u.Expiration
          ∧ u.Expiration.Expirable = true) := by
  obtain ⟨login, rest, hparts⟩ := SplitN_head (TrimSpace line) [':'] 1
  unfold handleLine
  simp only [hparts, List.getElem?_cons_zero]
  cases hinfo : getLoginExpiration getspnam login with
  | none => exact ⟨users, rfl, Or.inl rfl⟩
  | some info =>
    by_cases hexp : info.Expirable = true
    · simp only [hexp, if_true]
      exact ⟨_, rfl, Or.inr ⟨⟨login, info⟩, rfl, hinfo, hexp⟩⟩
    · simp only [hexp]
      exact ⟨users, rfl, Or.inl rfl⟩

theorem ReadString_length (delim : Char) (input : List Char)
    (h : (ReadString delim input).2.1 = false) :
    (ReadString delim input).2.2.length < input.length := by
  induction input with
  | nil => simp [ReadString] at h
  | cons c cs ih =>
    unfold ReadString at h ⊢
    by_cases hc : c = delim
    · simp [hc]
    · simp only [hc, if_false] at h ⊢
      have := ih h
      simp only [List.length_cons]
      omega

theorem readLoop_done (getspnam : List Char → Option Spwd) (fuel : ℕ) :
    ∀ (input : List Char) (users : List ExpirableLogin), input.length < fuel →
      (∀ u ∈ users, getLoginExpiration getspnam u.Login = some u.Expiration
        ∧ u.Expiration.Expirable = true) →
      ∃ users', readLoop getspnam fuel input users = Run.done users'
        ∧ ∀ u ∈ users', getLoginExpiration getspnam u.Login = some u.Expiration
          ∧ u.Expiration.Expirable = true := by
  induction fuel with
  | zero => intro input users h; exact absurd h (Nat.not_lt_zero _)
  | succ fuel ih =>
    intro input users hlen hinv
    unfold readLoop
    by_cases heof : (ReadString (Char.ofNat 10) input).2.1 = true
    · exact ⟨users, by simp only [heof, if_true], hinv⟩
    · have heof' : (ReadString (Char.ofNat 10) input).2.1 = false := by
        simpa using heof
      obtain ⟨users', hdone, hnew⟩ :=
        handleLine_done getspnam (ReadString (Char.ofNat 10) input).1 users
      have hshort := ReadString_length _ _ heof'
      simp only [heof', hdone, Bool.false_eq_true, if_false]
      apply ih _ _ (by omega)
      rcases hnew with rfl | ⟨u, rfl, hu⟩
      · exact hinv
      · intro v hv
        rcases List.mem_append.mp hv with hv | hv
        · exact hinv v hv
        · rw [List.mem_singleton.mp hv]
          exact hu

theorem listExpirableUsers_done (getspnam : List Char → Option Spwd)
    (shadow : Option (List Char)) :
    ∃ users, listExpirableUsers getspnam shadow = Run.done users
      ∧ ∀ u ∈ users, getLoginExpiration getspnam u.Login = some u.Expiration
        ∧ u.Expiration.Expirable = true := by
  cases shadow with
  | none => exact ⟨[], rfl, by simp⟩
  | some content =>
    exact readLoop_done getspnam _ content [] (Nat.lt_succ_self _) (by simp)

/-- C7: `Expirable` is `expireDay > -1` whatever the other fields are, the
listing is always produced and holds only records with `Expirable` true, and
no account whose `expireDay` is `-1` appears in it. -/
theorem listExpirableUsers_expirable (getspnam : List Char → Option Spwd)
    (shadow : Option (List Char)) :
    (∀ login sp, getspnam login = some sp →
        ∃ info, getLoginExpiration getspnam login = some info
          ∧ info.Expirable = decide (sp.sp_expire > -1))
      ∧ ∃ users, listExpirableUsers getspnam shadow = Run.done users
          ∧ (∀ u ∈ users, u.Expiration.Expirable = true)
          ∧ (∀ login sp, getspnam login = some sp → sp.sp_expire = -1 →
              ∀ u ∈ users, u.Login ≠ login) := by
  refine ⟨fun login sp h => getLoginExpiration_isSome h, ?_⟩
  obtain ⟨users, hdone, hinv⟩ := listExpirableUsers_done getspnam shadow
  refine ⟨users, hdone, fun u hu => (hinv u hu).2, ?_⟩
  intro login sp hsp hexp u hu hlogin
  obtain ⟨sp', hsp', hflag⟩ := getLoginExpiration_some (hinv u hu).1
  rw [hlogin, hsp] at hsp'
  cases hsp'
  rw [(hinv u hu).2, hexp] at hflag
  exact absurd hflag (by decide)

/-- C7, witness: `eve` has `expireDay = -1` and a line in the file; the listing
holds `ann` and `bob` only. -/
theorem listExpirableUsers_expirable_witness :
    sampleShadow ['e', 'v', 'e'] = some ⟨19000, 0, 99999, 7, -1, -1⟩
      ∧ listExpirableUsers sampleShadow (some shadowFile) = Run.done [annLogin, bobLogin]
      ∧ ∃ users, listExpirableUsers sampleShadow (some shadowFile) = Run.done users
          ∧ ∀ u ∈ users, u.Login ≠ ['e', 'v', 'e'] := by
  refine ⟨by decide, by decide, ?_⟩
  obtain ⟨users, hdone, _, hout⟩ := (listExpirableUsers_expirable sampleShadow (some shadowFile)).2
  exact ⟨users, hdone, hout ['e', 'v', 'e'] ⟨19000, 0, 99999, 7, -1, -1⟩ (by decide) rfl⟩

/-- C9, counterexample: the lines `root` and `bob` hold no colon;
`strings.SplitN` returns the one-element slice holding the line, `parts[0]` is
the line, and the loop body ends without an out-of-range access: `root` is
looked up and not found, `bob` is looked up, found and appended. -/
theorem no_colon_line_is_handled :
    ':' ∉ ['r', 'o', 'o', 't']
      ∧ SplitN (TrimSpace ['r', 'o', 'o', 't']) [':'] 2 = [['r', 'o', 'o', 't']]
      ∧ (SplitN (TrimSpace ['r', 'o', 'o', 't']) [':'] 2)[0]? = some ['r', 'o', 'o', 't']
      ∧ handleLine sampleShadow ['r', 'o', 'o', 't'] [] = Run.done []
      ∧ ':' ∉ ['b', 'o', 'b']
      ∧ (SplitN (TrimSpace ['b', 'o', 'b']) [':'] 2)[0]? = some ['b', 'o', 'b']
      ∧ handleLine sampleShadow ['b', 'o', 'b'] [annLogin] = Run.done [annLogin, bobLogin] := by
  decide

/-- C9, amended: for a line that contains no colon, `strings.SplitN(line, ":", 2)`
returns the one-element slice holding the trimmed line, so `parts[0]` is the
whole trimmed line, and the loop body looks that line up as a login id: the
users are unchanged when the lookup finds no record or one that is not
expirable, and else gain the entry of the trimmed line with the record found;
the loop body never ends in an out-of-range access. -/
theorem handleLine_of_no_colon (getspnam : List Char → Option Spwd) (line : List Char)
    (users : List ExpirableLogin) (h : ':' ∉ line) :
    SplitN (TrimSpace line) [':'] 2 = [TrimSpace line]
      ∧ (SplitN (TrimSpace line) [':'] 2)[0]? = some (TrimSpace line)
      ∧ handleLine getspnam line users
          = (match getLoginExpiration getspnam (TrimSpace line) with
            | none => Run.done users
            | some expInfo =>
              if expInfo.Expirable then Run.done (users ++ [⟨TrimSpace line, expInfo⟩])
              else Run.done users)
      ∧ handleLine getspnam line users ≠ Run.indexOutOfRange := by
  have hsplit := SplitN_of_no_colon (fun hc => h (mem_of_mem_TrimSpace hc))
  refine ⟨hsplit, by rw [hsplit]; rfl, ?_, ?_⟩
  · unfold handleLine
    simp only [hsplit, List.getElem?_cons_zero]
  · obtain ⟨users', hdone, _⟩ := handleLine_done getspnam line users
    rw [hdone]
    exact fun hne => Run.noConfusion hne

/-- C9, witness: the line `ann` followed by a newline, as `ReadString` returns
it; the trimmed line `ann` is looked up, found, and appended to the users. -/
theorem handleLine_of_no_colon_witness :
    ':' ∉ ['a', 'n', 'n', Char.ofNat 10]
      ∧ TrimSpace ['a', 'n', 'n', Char.ofNat 10] = ['a', 'n', 'n']
      ∧ handleLine sampleShadow ['a', 'n', 'n', Char.ofNat 10] [] = Run.done [annLogin]
      ∧ handleLine sampleShadow ['a', 'n', 'n', Char.ofNat 10] [] ≠ Run.indexOutOfRange := by
  have hw := handleLine_of_no_colon sampleShadow ['a', 'n', 'n', Char.ofNat 10] [] (by decide)
  refine ⟨by decide, by decide, ?_, hw.2.2.2⟩
  rw [hw.2.2.1]
  decide

/-- C10, the code at the failing input: the last line `bob:z` of the file is not
terminated by a newline; `bob` is in the database and expirable, yet the
listing holds `ann` only, while the same file with a final newline lists
`ann` and `bob`. -/
theorem listExpirableUsers_skips_last_line :
    (∃ info, getLoginExpiration sampleShadow ['b', 'o', 'b'] = some info
        ∧ info.Expirable = true)
      ∧ listExpirableUsers sampleShadow (some shadowFileUnterminated) = Run.done [annLogin]
      ∧ listExpirableUsers sampleShadow (some shadowFile) = Run.done [annLogin, bobLogin] := by
  refine ⟨⟨bobLogin.Expiration, by decide, by decide⟩, by decide, by decide⟩

end Passcheck
